import Mathlib

/-!
Shallow embedding of `scripts/package_skill.py`.

The program packages a skill folder into a zip archive (`.skill` file) and a
`build/` directory mirror.  We model:

* paths as lists of components of the resolved absolute path (the leading
  `/` root marker of `pathlib` parts is omitted; it never matches any
  exclusion rule),
* the filesystem as a finite association list of file paths to contents plus
  a list of directory paths,
* file contents abstractly: `raw` stands for any byte string that does not
  parse as JSON, `json j` for a byte string whose `json.load` result is `j`
  (JSON numbers are modelled as integers; no claim involves floating-point
  version values), and `zipData` for a written zip archive, whose entries
  record the logical (arcname, content) pairs — deflate compression is
  invisible at this level since extraction recovers the bytes,
* `validate_skill` (imported from `quick_validate`, outside this repository
  and declared out of scope by the spec) as an opaque function parameter,
* uncaught Python exceptions as `Except.error`; the caught failure paths of
  `package_skill` return `Except.ok` with a `none` result, mirroring
  `return None`.

Stdout printing is modelled by a log of message strings accumulated in the
run output.
-/

/-- A resolved absolute path, as its list of components. -/
abbrev Fpath := List String

/-- JSON values as produced by Python's `json.load`. -/
inductive Json where
  | null
  | bool (b : Bool)
  | num (n : Int)
  | str (s : String)
  | arr (xs : List Json)
  | obj (fields : List (String × Json))

/-- File contents.  `raw` abstracts any byte string that is not valid JSON. -/
inductive FileData where
  | raw (bytes : List Nat)
  | json (j : Json)
  | zipData (entries : List (Fpath × FileData))

/-- An ASCII single-quote character, as used by Python `repr`. -/
def pyQuote : String := String.singleton (Char.ofNat 39)

/-- Python `repr` of a JSON-decoded value (string escaping is not modelled;
no claim depends on it). -/
def pyRepr : Json → String
  | .null => "None"
  | .bool b => cond b "True" "False"
  | .num n => toString n
  | .str s => pyQuote ++ s ++ pyQuote
  | .arr xs => "[" ++ String.intercalate ", " (xs.attach.map fun x => pyRepr x.1) ++ "]"
  | .obj fields =>
      "\x7b" ++
        String.intercalate ", "
          (fields.attach.map fun f => pyQuote ++ f.1.1 ++ pyQuote ++ ": " ++ pyRepr f.1.2) ++
      "\x7d"
decreasing_by
  · have := List.sizeOf_lt_of_mem x.2
    simp at *; omega
  · have h1 := List.sizeOf_lt_of_mem f.2
    have h2 : sizeOf f.1.2 < sizeOf f.1 := by
      obtain ⟨x, e⟩ := f
      obtain ⟨a, b⟩ := x
      simp
    simp at *; omega

/-- Python `str` of a JSON-decoded value: strings print as themselves, all
other values print as their `repr`. -/
def pyStr : Json → String
  | .str s => s
  | j => pyRepr j

/-- The filesystem: files (path to content) and existing directories. -/
structure FS where
  files : List (Fpath × FileData)
  dirs : List Fpath

/-- Content of the file at `p`, if a file exists there. -/
def FS.read (fs : FS) (p : Fpath) : Option FileData :=
  (fs.files.find? (fun e => e.1 == p)).map (·.2)

/-- `Path.is_file`-like check (our file entries are exactly the regular files). -/
def FS.isFile (fs : FS) (p : Fpath) : Bool :=
  (fs.read p).isSome

/-- `Path.is_dir()`. -/
def FS.isDir (fs : FS) (p : Fpath) : Bool :=
  fs.dirs.contains p

/-- `Path.exists()`: true for files and directories. -/
def FS.pexists (fs : FS) (p : Fpath) : Bool :=
  fs.isFile p || fs.isDir p

/-- Create or overwrite the file at `p` with content `d`. -/
def FS.writeFile (fs : FS) (p : Fpath) (d : FileData) : FS :=
  ⟨(p, d) :: fs.files.filter (fun e => !(e.1 == p)), fs.dirs⟩

/-- `shutil.rmtree p`: remove `p` and everything beneath it. -/
def FS.rmtree (fs : FS) (p : Fpath) : FS :=
  ⟨fs.files.filter (fun e => !(p.isPrefixOf e.1)),
   fs.dirs.filter (fun d => !(p.isPrefixOf d))⟩

/-- All prefixes of a path, from the root `[]` up to the path itself. -/
def allPrefixes (p : Fpath) : List Fpath :=
  (List.range (p.length + 1)).map (fun i => p.take i)

/-- Create the directory `p` and all missing parents (never fails; used where
the surrounding code guarantees no file is in the way). -/
def FS.mkdirAll (fs : FS) (p : Fpath) : FS :=
  ⟨fs.files, allPrefixes p ++ fs.dirs⟩

/-- `Path.mkdir(parents=True, exist_ok=True)`: raises (`FileExistsError` /
`NotADirectoryError`) when the path or one of its ancestors exists as a
regular file; otherwise creates all missing directories. -/
def FS.mkdirp (fs : FS) (p : Fpath) : Except String FS :=
  if (allPrefixes p).any (fun q => fs.isFile q) then .error "FileExistsError"
  else .ok (fs.mkdirAll p)

/-- `Path.name`: the final path component. -/
def pathName (p : Fpath) : String :=
  (p.getLast?).getD ""

/-- `str()` of a resolved absolute `Path`. -/
def pathStr (p : Fpath) : String :=
  "/" ++ String.intercalate "/" p

/-- `str()` of a relative `Path`. -/
def relStr (p : Fpath) : String :=
  String.intercalate "/" p

/-- `PurePath.suffix`: the extension of the final component.  Python takes
the part of the name from its last dot (`name.rfind('.') = i`), provided
`0 < i < len(name) - 1`.  Here `afterRev` is the reversed run of characters
after the last dot: it is empty iff the dot is last, and has length
`len - 1` iff the dot is first. -/
def pySuffix (name : String) : String :=
  let cs := name.data
  if cs.contains (Char.ofNat 46) then
    let afterRev := cs.reverse.takeWhile (fun c => !(c == Char.ofNat 46))
    if afterRev.length = 0 || afterRev.length = cs.length - 1 then ""
    else String.mk (Char.ofNat 46 :: afterRev.reverse)
  else ""

/-- The exclusion filter of the traversal loop (lines 88-115 of
`package_skill.py`), in source order.  It is evaluated on the components of
the full resolved absolute path, as `file_path.parts` is in the source. -/
def shouldSkip (p : Fpath) : Bool :=
  p.contains "rules" || p.contains ".git" || p.contains "__pycache__" ||
  (p.contains ".trae" || pathName p == "feedback_logs.jsonl") ||
  p.contains "skill-creator" ||
  p.contains "build" ||
  (pathName p == "package_skill.py" || pathName p == "init_skill.py" ||
    pathName p == "quick_validate.py") ||
  (pathName p == ".gitignore" || pathName p == ".gitmodules") ||
  p.contains "upstream-src" ||
  pySuffix (pathName p) == ".skill"

/-- `skill_path.rglob('*')` yields exactly the entries strictly below the
skill folder (pathlib globbing does not special-case dot files). -/
def isUnder (sp p : Fpath) : Bool :=
  sp.isPrefixOf p && !(p == sp)

/-- The relative path of `p` below `sp` (`file_path.relative_to(skill_path)`). -/
def relOf (sp p : Fpath) : Fpath :=
  p.drop sp.length

/-- The files of `fs` that the traversal loop includes: strictly below the
skill folder and not filtered out.  Directories are never added (the
`is_file()` gate), so only file entries matter. -/
def includedSrc (fs : FS) (sp : Fpath) : List (Fpath × FileData) :=
  fs.files.filter (fun e => isUnder sp e.1 && !shouldSkip e.1)

/- Messages printed by the script. -/

def msgNotFound (sp : Fpath) : String :=
  "❌ Error: Skill folder not found: " ++ pathStr sp

def msgNotDir (sp : Fpath) : String :=
  "❌ Error: Path is not a directory: " ++ pathStr sp

def msgNoSkillMd (sp : Fpath) : String :=
  "❌ Error: SKILL.md not found in " ++ pathStr sp

def msgValidating : String := "🔍 Validating skill..."

def msgInvalid (m : String) : String := "❌ Validation failed: " ++ m

def msgFixHint : String := "   Please fix the validation errors before packaging."

def msgValidOk (m : String) : String := "✅ " ++ m ++ "\n"

def msgDetected (v : Json) : String := "🔖 Detected version: " ++ pyStr v

/-- The warning printed on a version read/parse failure (the appended
Python exception text `{e}` is not modelled). -/
def msgVersionWarn : String := "⚠️ Warning: Could not read version from package.json"

def msgPrep (bd : Fpath) : String := "🏗️  Preparing build directory: " ++ pathStr bd

def msgAdded (rel : Fpath) : String := "  Added: " ++ relStr rel

def msgCreatedPkg : String := "📄 Created package.json in build directory"

def msgSuccess (f : Fpath) : String := "\n✅ Successfully packaged skill to: " ++ pathStr f

def msgBuildReady (bd : Fpath) : String := "✅ Build directory ready at: " ++ pathStr bd

def msgNpmHint : String :=
  "👉 You can now run " ++ pyQuote ++ "npm link" ++ pyQuote ++ " inside the build directory."

/-- The error printed when the write phase raises (the appended exception
text `{e}` is not modelled). -/
def msgZipErr : String := "❌ Error creating .skill file or build directory"

/-- Python `dict` lookup for a dict built by `json.load`: with duplicate
keys, the last occurrence wins. -/
def jsonLookupLast (fields : List (String × Json)) (key : String) : Option Json :=
  (fields.reverse.find? (fun f => f.1 == key)).map (·.2)

/-- Version discovery (lines 54-64): returns the version value together with
the messages printed.  `version` starts at `"1.0.0"`; the `try` block opens
`package.json`, parses it and calls `.get("version", "1.0.0")`; any
exception (unreadable because it is a directory, unparsable content, or a
non-dict JSON document, whose `.get` raises `AttributeError`) is caught and
produces only a warning. -/
def readVersion (fs : FS) (sp : Fpath) : Json × List String :=
  if fs.pexists (sp ++ ["package.json"]) then
    match fs.read (sp ++ ["package.json"]) with
    | some (.json (.obj fields)) =>
        match jsonLookupLast fields "version" with
        | some v => (v, [msgDetected v])
        | none => (.str "1.0.0", [msgDetected (.str "1.0.0")])
    | _ => (.str "1.0.0", [msgVersionWarn])
  else (.str "1.0.0", [])

/-- The generated build manifest (lines 131-136). -/
def manifestJson (v : Json) : Json :=
  .obj [("name", .str "wellog-viz-skill"),
        ("version", v),
        ("description", .str "Wellog Visualisation Skill Documentation and Patterns"),
        ("private", .bool true)]

/-- `f"{skill_name}-{version}.skill"`. -/
def archiveName (sname : String) (v : Json) : String :=
  sname ++ "-" ++ pyStr v ++ ".skill"

/-- The output location (lines 66-70): the explicit argument or the current
working directory. -/
def resolvedOut (od : Option Fpath) (cwd : Fpath) : Fpath :=
  match od with
  | some d => d
  | none => cwd

/-- Output-location resolution: with an explicit argument the directory is
created (`mkdir(parents=True, exist_ok=True)`, uncaught on failure);
without, the current working directory is used untouched. -/
def outputPhase (fs : FS) (od : Option Fpath) (cwd : Fpath) :
    Except String (Fpath × FS) :=
  match od with
  | some d => (fs.mkdirp d).map (fun fs1 => (d, fs1))
  | none => .ok (cwd, fs)

/-- Build-directory preparation (lines 73-76): if `build` exists it is
removed with `shutil.rmtree` (which raises `NotADirectoryError`, uncaught,
when `build` is a regular file); then it is recreated.  Both operations are
outside the `try` block. -/
def prepareBuild (fs : FS) (sp : Fpath) : Except String FS :=
  if fs.pexists (sp ++ ["build"]) then
    if fs.isDir (sp ++ ["build"]) then (fs.rmtree (sp ++ ["build"])).mkdirp (sp ++ ["build"])
    else .error "NotADirectoryError"
  else fs.mkdirp (sp ++ ["build"])

/-- `dest_path` of the build-directory copy of source file `p`. -/
def copyDest (sp p : Fpath) : Fpath :=
  sp ++ ["build"] ++ relOf sp p

/-- One iteration of the copy half of the loop (lines 123-126):
`dest_path.parent.mkdir(parents=True, exist_ok=True)` followed by
`shutil.copy2` (the copy preserves content; metadata is not modelled). -/
def copyStep (sp : Fpath) (fs : FS) (e : Fpath × FileData) : FS :=
  (fs.mkdirAll (copyDest sp e.1).dropLast).writeFile (copyDest sp e.1) e.2

/-- The filesystem after the `try` block succeeds: all build-directory
copies, then the closed zip archive (its central directory is written when
the `with` block exits, before the manifest), then the generated
`package.json` in the build directory.  No copy destination can collide
with the archive path while the loop runs (copy destinations never have a
`.skill` suffix and the manifest is written after the zip is closed), so
this sequencing is observationally the same as the interleaved original. -/
def finalFS (fs3 : FS) (sp outp : Fpath) (v : Json) : FS :=
  ((((includedSrc fs3 sp).foldl (copyStep sp) fs3).writeFile
      (outp ++ [archiveName (pathName sp) v])
      (.zipData ((includedSrc fs3 sp).map (fun e => (pathName sp :: relOf sp e.1, e.2))))).writeFile
    (sp ++ ["build", "package.json"]) (.json (manifestJson v)))

/-- The result of one invocation: the returned value (`None` mapped to
`none`), the final filesystem, and the printed messages. -/
structure RunOut where
  result : Option Fpath
  fs : FS
  log : List String

/-- The log printed by the try block on success. -/
def tryLog (fs3 : FS) (sp : Fpath) (fname : Fpath) : List String :=
  (includedSrc fs3 sp).map (fun e => msgAdded (relOf sp e.1)) ++
    [msgCreatedPkg, msgSuccess fname, msgBuildReady (sp ++ ["build"]), msgNpmHint]

/-- The `try` block (lines 83-148).  Opening the zip for writing fails —
caught by the `except`, yielding `None` — when the output location is not
an existing directory or the target name is itself a directory; otherwise
the traversal, the copies, the archive and the manifest are written. -/
def tryPhase (fs3 : FS) (sp outp : Fpath) (v : Json) : RunOut :=
  if fs3.isDir outp && !fs3.isDir (outp ++ [archiveName (pathName sp) v]) then
    ⟨some (outp ++ [archiveName (pathName sp) v]), finalFS fs3 sp outp v,
      tryLog fs3 sp (outp ++ [archiveName (pathName sp) v])⟩
  else
    ⟨none, fs3, [msgZipErr]⟩

/-- Everything after the four preconditions pass: version discovery has
already produced `vres`, then output-location resolution, build-directory
preparation (both able to raise uncaught exceptions) and the try block. -/
def packBody (fs0 : FS) (sp : Fpath) (od : Option Fpath) (cwd : Fpath)
    (vres : Json × List String) (okMsg : String) : Except String RunOut :=
  match outputPhase fs0 od cwd with
  | .error e => .error e
  | .ok (outp, fs1) =>
    match prepareBuild fs1 sp with
    | .error e => .error e
    | .ok fs3 =>
      .ok ⟨(tryPhase fs3 sp outp vres.1).result, (tryPhase fs3 sp outp vres.1).fs,
        [msgValidating, msgValidOk okMsg] ++ vres.2 ++ [msgPrep (sp ++ ["build"])] ++
          (tryPhase fs3 sp outp vres.1).log⟩

/-- `package_skill(skill_path, output_dir)`.  `validate` is the external
`validate_skill` collaborator; `sp` is the already-resolved skill path,
`cwd` the current working directory. -/
def package_skill (validate : Fpath → FS → Bool × String) (fs0 : FS)
    (sp : Fpath) (od : Option Fpath) (cwd : Fpath) : Except String RunOut :=
  if fs0.pexists sp = false then
    .ok ⟨none, fs0, [msgNotFound sp]⟩
  else if fs0.isDir sp = false then
    .ok ⟨none, fs0, [msgNotDir sp]⟩
  else if fs0.pexists (sp ++ ["SKILL.md"]) = false then
    .ok ⟨none, fs0, [msgNoSkillMd sp]⟩
  else
    let vr := validate sp fs0
    if vr.1 = false then
      .ok ⟨none, fs0, [msgValidating, msgInvalid vr.2, msgFixHint]⟩
    else
      packBody fs0 sp od cwd (readVersion fs0 sp) vr.2

/- Projections over run outcomes, used to state the claims. -/

/-- The value returned by `package_skill` (`none` both for `return None` and
for a crash, where nothing is returned). -/
def runResult : Except String RunOut → Option Fpath
  | .ok r => r.result
  | .error _ => none

/-- The final filesystem of a completed run (junk on a crash). -/
def runFS : Except String RunOut → FS
  | .ok r => r.fs
  | .error _ => ⟨[], []⟩

/-- The messages printed by a completed run. -/
def runLog : Except String RunOut → List String
  | .ok r => r.log
  | .error _ => []

/-- Did the run complete and return an archive path? -/
def runSuccess (E : Except String RunOut) : Bool :=
  (runResult E).isSome

/-- Did the run terminate with an uncaught exception? -/
def runCrashed : Except String RunOut → Bool
  | .ok _ => false
  | .error _ => true

/-- The entries of the archive a successful run returned. -/
def archiveEntries (E : Except String RunOut) : List (Fpath × FileData) :=
  match runResult E with
  | some f =>
      match (runFS E).read f with
      | some (.zipData es) => es
      | _ => []
  | none => []

/-- The four preconditions of lines 28-48, conjoined. -/
def precondsPass (validate : Fpath → FS → Bool × String) (fs0 : FS) (sp : Fpath) : Bool :=
  fs0.pexists sp && fs0.isDir sp && fs0.pexists (sp ++ ["SKILL.md"]) && (validate sp fs0).1

/-- The error, if any, raised by the two uncaught preparation steps
(output-directory creation and build-directory preparation). -/
def prepPhaseErr (fs0 : FS) (sp : Fpath) (od : Option Fpath) (cwd : Fpath) : Option String :=
  match outputPhase fs0 od cwd with
  | .error e => some e
  | .ok (_, fs1) =>
      match prepareBuild fs1 sp with
      | .error e => some e
      | .ok _ => none

/-- The state after the preparation steps, if they do not raise. -/
def prepOut (fs0 : FS) (sp : Fpath) (od : Option Fpath) (cwd : Fpath) :
    Option (Fpath × FS) :=
  match outputPhase fs0 od cwd with
  | .error _ => none
  | .ok (outp, fs1) =>
      match prepareBuild fs1 sp with
      | .error _ => none
      | .ok fs3 => some (outp, fs3)

/-- The exclusion rule exactly as claim C2 words it: a path component equal
to one of the seven directory names, a file name equal to one of the six
special names, or extension `.skill`. -/
def claimExcluded (p : Fpath) : Bool :=
  (p.contains "rules" || p.contains ".git" || p.contains "__pycache__" ||
   p.contains ".trae" || p.contains "skill-creator" || p.contains "upstream-src" ||
   p.contains "build") ||
  (pathName p == "feedback_logs.jsonl" || pathName p == ".gitignore" ||
   pathName p == ".gitmodules" || pathName p == "package_skill.py" ||
   pathName p == "init_skill.py" || pathName p == "quick_validate.py") ||
  pySuffix (pathName p) == ".skill"

/-- The seven directory-component names of the exclusion rules. -/
def excludedComponents : List String :=
  ["rules", ".git", "__pycache__", ".trae", "skill-creator", "upstream-src", "build"]

/-- Does the path itself contain an excluded component? -/
def hasExcludedAncestor (sp : Fpath) : Bool :=
  excludedComponents.any (fun c => sp.contains c)

/-- Filesystem well-formedness used in the theorems: file paths are unique,
and every proper prefix of a file path is an existing directory (as on a
real filesystem). -/
def FS.Wf (fs : FS) : Prop :=
  (fs.files.map Prod.fst).Nodup ∧
  ∀ e ∈ fs.files, ∀ i ∈ List.range e.1.length, e.1.take i ∈ fs.dirs

instance (fs : FS) : Decidable fs.Wf := by
  unfold FS.Wf; infer_instance

/-! ### Generic lemmas about the filesystem operations -/

lemma find?_congr_mem {α} (l : List α) (p q : α → Bool) (h : ∀ x ∈ l, p x = q x) :
    l.find? p = l.find? q := by
  induction l with
  | nil => rfl
  | cons a t ih =>
    have ha := h a (List.mem_cons_self a t)
    cases hq : q a with
    | true => rw [List.find?_cons_of_pos _ (ha.trans hq), List.find?_cons_of_pos _ hq]
    | false =>
      rw [List.find?_cons_of_neg _ (by simp [ha, hq]), List.find?_cons_of_neg _ (by simp [hq]),
        ih (fun x hx => h x (List.mem_cons_of_mem a hx))]

lemma find?_filter_keep {α} (l : List α) (f g : α → Bool)
    (h : ∀ x, f x = true → g x = true) :
    (l.filter g).find? f = l.find? f := by
  rw [List.find?_filter]
  apply find?_congr_mem
  intro x _
  cases hf : f x with
  | true => simp [h x hf, hf]
  | false => simp [hf]

lemma read_writeFile_self (fs : FS) (p : Fpath) (d : FileData) :
    (fs.writeFile p d).read p = some d := by
  unfold FS.writeFile FS.read
  rw [List.find?_cons_of_pos _ (by simp)]
  rfl

lemma read_writeFile_ne (fs : FS) (p q : Fpath) (d : FileData) (h : q ≠ p) :
    (fs.writeFile p d).read q = fs.read q := by
  unfold FS.writeFile FS.read
  rw [List.find?_cons_of_neg _ (by simp [Ne.symm h]),
    find?_filter_keep _ _ _ (fun x hx => ?_)]
  have : x.1 = q := by simpa using hx
  simp [this, h]

lemma read_mkdirAll (fs : FS) (p q : Fpath) : (fs.mkdirAll p).read q = fs.read q := rfl

lemma read_rmtree_of_isPrefixOf (fs : FS) (p q : Fpath) (h : p.isPrefixOf q = true) :
    (fs.rmtree p).read q = none := by
  unfold FS.rmtree FS.read
  have : (fs.files.filter fun e => !(p.isPrefixOf e.1)).find? (fun e => e.1 == q) = none := by
    rw [List.find?_eq_none]
    intro x hx hbeq
    have h1 : p.isPrefixOf x.1 = false := by
      have := (List.mem_filter.mp hx).2
      simpa using this
    have h2 : x.1 = q := by simpa using hbeq
    rw [h2, h] at h1
    cases h1
  simp [this]

lemma mkdirp_ok_files {fs fs' : FS} {p : Fpath} (h : fs.mkdirp p = .ok fs') :
    fs'.files = fs.files := by
  unfold FS.mkdirp at h
  split at h
  · cases h
  · cases h; rfl

lemma mkdirp_ok_dirs {fs fs' : FS} {p : Fpath} (h : fs.mkdirp p = .ok fs') :
    ∀ x ∈ fs.dirs, x ∈ fs'.dirs := by
  unfold FS.mkdirp at h
  split at h
  · cases h
  · cases h
    intro x hx
    exact List.mem_append_right _ hx

/-- The last-write-wins content of the copy loop: a read after the fold
returns the content of the last copied file targeting that path, and is
otherwise untouched. -/
lemma read_copyFold (sp : Fpath) (l : List (Fpath × FileData)) (fs : FS) (q : Fpath) :
    (l.foldl (copyStep sp) fs).read q =
      ((l.reverse.find? (fun e => copyDest sp e.1 == q)).map (·.2)).or (fs.read q) := by
  induction l generalizing fs with
  | nil => simp
  | cons a t ih =>
    rw [List.foldl_cons, ih, List.reverse_cons, List.find?_append]
    cases hf : t.reverse.find? (fun e => copyDest sp e.1 == q) with
    | some e => simp
    | none =>
      cases hd : (copyDest sp a.1 == q) with
      | true =>
        have : q = copyDest sp a.1 := (eq_of_beq hd).symm
        subst this
        simp [copyStep, hd, read_writeFile_self]
      | false =>
        have hne : q ≠ copyDest sp a.1 := fun e => by simp [e] at hd
        simp [copyStep, hd, read_writeFile_ne _ _ _ _ hne, read_mkdirAll]

lemma find?_reverse_of_unique {α} (l : List α) (p : α → Bool)
    (h : ∀ x ∈ l, ∀ y ∈ l, p x = true → p y = true → x = y) :
    l.reverse.find? p = l.find? p := by
  cases hf : l.find? p with
  | none =>
    rw [List.find?_eq_none] at hf ⊢
    intro x hx
    exact hf x (List.mem_reverse.mp hx)
  | some a =>
    have ha := List.find?_some hf
    have ham := List.mem_of_find?_eq_some hf
    cases hg : l.reverse.find? p with
    | none =>
      rw [List.find?_eq_none] at hg
      exact absurd ha (hg a (List.mem_reverse.mpr ham))
    | some b =>
      have hb := List.find?_some hg
      have hbm := List.mem_reverse.mp (List.mem_of_find?_eq_some hg)
      rw [h b hbm a ham hb ha]

/-! ### Facts about the run phases -/

lemma outputPhase_ok {fs fs1 : FS} {od : Option Fpath} {cwd outp : Fpath}
    (h : outputPhase fs od cwd = .ok (outp, fs1)) :
    outp = resolvedOut od cwd ∧ fs1.files = fs.files ∧ ∀ x ∈ fs.dirs, x ∈ fs1.dirs := by
  cases od with
  | none =>
    simp only [outputPhase] at h
    cases h
    exact ⟨rfl, rfl, fun x hx => hx⟩
  | some d =>
    simp only [outputPhase] at h
    cases hm : fs.mkdirp d with
    | error e => rw [hm] at h; cases h
    | ok fsx =>
      rw [hm] at h
      simp only [Except.map] at h
      cases h
      exact ⟨rfl, mkdirp_ok_files hm, mkdirp_ok_dirs hm⟩

lemma prepareBuild_ok {fs1 fs3 : FS} {sp : Fpath}
    (h : prepareBuild fs1 sp = .ok fs3) :
    (fs3.files = fs1.files.filter (fun e => !((sp ++ ["build"]).isPrefixOf e.1))) ∨
    (fs3.files = fs1.files ∧ fs1.pexists (sp ++ ["build"]) = false) := by
  unfold prepareBuild at h
  split at h
  · split at h
    · left
      have := mkdirp_ok_files h
      rw [this]
      rfl
    · cases h
  · right
    refine ⟨mkdirp_ok_files h, ?_⟩
    rename_i hq
    simpa using hq

lemma isFile_of_mem {fs : FS} {x : Fpath × FileData} (hx : x ∈ fs.files) :
    fs.isFile x.1 = true := by
  unfold FS.isFile FS.read
  cases hf : fs.files.find? (fun e => e.1 == x.1) with
  | none =>
    rw [List.find?_eq_none] at hf
    exact absurd (by simp : (x.1 == x.1) = true) (hf x hx)
  | some e => rfl

/-- After a successful build-directory preparation on a well-formed
filesystem, no file lies at or below the build directory. -/
lemma prepareBuild_no_files {fs1 fs3 : FS} {sp : Fpath}
    (hwf : ∀ e ∈ fs1.files, ∀ i ∈ List.range e.1.length, e.1.take i ∈ fs1.dirs)
    (h : prepareBuild fs1 sp = .ok fs3) (q : Fpath) :
    fs3.read ((sp ++ ["build"]) ++ q) = none := by
  rcases prepareBuild_ok h with hf | ⟨hf, hpe⟩
  · unfold FS.read
    rw [hf]
    have : (fs1.files.filter fun e => !((sp ++ ["build"]).isPrefixOf e.1)).find?
        (fun e => e.1 == (sp ++ ["build"]) ++ q) = none := by
      rw [List.find?_eq_none]
      intro x hx hbeq
      have h1 : (sp ++ ["build"]).isPrefixOf x.1 = false := by
        simpa using (List.mem_filter.mp hx).2
      have h2 : x.1 = (sp ++ ["build"]) ++ q := by simpa using hbeq
      rw [h2, List.isPrefixOf_iff_prefix.mpr (List.prefix_append _ _)] at h1
      cases h1
    rw [this]
    rfl
  · unfold FS.read
    rw [hf]
    have hnone : fs1.files.find? (fun e => e.1 == (sp ++ ["build"]) ++ q) = none := by
      rw [List.find?_eq_none]
      intro x hx hbeq
      have h2 : x.1 = (sp ++ ["build"]) ++ q := by simpa using hbeq
      have hpex : fs1.pexists (sp ++ ["build"]) = true := by
        cases q with
        | nil =>
          have hfile := isFile_of_mem hx
          rw [h2, List.append_nil] at hfile
          simp [FS.pexists, hfile]
        | cons a t =>
          have hi : (sp ++ ["build"]).length ∈ List.range x.1.length := by
            rw [List.mem_range, h2]
            simp [List.length_append]
          have hdir := hwf x hx _ hi
          rw [h2, List.take_left] at hdir
          simp [FS.pexists, FS.isDir, hdir]
      rw [hpex] at hpe
      cases hpe
    rw [hnone]
    rfl

lemma includedSrc_files_eq {fs fs' : FS} (h : fs.files = fs'.files) (sp : Fpath) :
    includedSrc fs sp = includedSrc fs' sp := by
  unfold includedSrc
  rw [h]

lemma not_shouldSkip_no_build {p : Fpath} (h : shouldSkip p = false) :
    p.contains "build" = false := by
  cases hb : p.contains "build" with
  | false => rfl
  | true =>
    unfold shouldSkip at h
    rw [hb] at h
    simp at h

lemma contains_build_of_isPrefixOf {p : Fpath} {sp : Fpath}
    (h : (sp ++ ["build"]).isPrefixOf p = true) : p.contains "build" = true := by
  have hm : "build" ∈ p := by
    have hsub := (List.isPrefixOf_iff_prefix.mp h).sublist
    exact hsub.mem (List.mem_append_right sp (by simp))
  simpa [List.contains] using List.elem_iff.mpr hm

/-- The filtering of the traversal is unaffected by the build-directory
preparation: every file it removes carries a `build` component and is
filtered out anyway. -/
lemma includedSrc_prepare {fs1 fs3 : FS} {sp : Fpath}
    (h : prepareBuild fs1 sp = .ok fs3) :
    includedSrc fs3 sp = includedSrc fs1 sp := by
  rcases prepareBuild_ok h with hf | ⟨hf, _⟩
  · unfold includedSrc
    rw [hf, List.filter_filter]
    apply List.filter_congr
    intro x _
    cases hp : (isUnder sp x.1 && !shouldSkip x.1) with
    | false => simp
    | true =>
      have hsk : shouldSkip x.1 = false := by
        have hp' := hp
        simp only [Bool.and_eq_true] at hp'
        simpa using hp'.2
      have hnb := not_shouldSkip_no_build hsk
      have hnp : (sp ++ ["build"]).isPrefixOf x.1 = false := by
        cases hq : (sp ++ ["build"]).isPrefixOf x.1 with
        | false => rfl
        | true => rw [contains_build_of_isPrefixOf hq] at hnb; cases hnb
      simp [hnp]
  · unfold includedSrc
    rw [hf]

lemma isUnder_eq_append {sp p : Fpath} (h : isUnder sp p = true) :
    sp ++ relOf sp p = p := by
  unfold isUnder at h
  simp only [Bool.and_eq_true] at h
  exact List.prefix_iff_eq_append.mp (List.isPrefixOf_iff_prefix.mp h.1)

lemma isUnder_inj {sp p p' : Fpath} (h : isUnder sp p = true) (h' : isUnder sp p' = true)
    (he : relOf sp p = relOf sp p') : p = p' := by
  rw [← isUnder_eq_append h, ← isUnder_eq_append h', he]

lemma includedSrc_isUnder {fs : FS} {sp : Fpath} {x : Fpath × FileData}
    (hx : x ∈ includedSrc fs sp) :
    x ∈ fs.files ∧ isUnder sp x.1 = true ∧ shouldSkip x.1 = false := by
  have h1 := List.mem_filter.mp hx
  have h2 := h1.2
  simp only [Bool.and_eq_true] at h2
  refine ⟨h1.1, h2.1, by simpa using h2.2⟩

lemma includedSrc_key_unique {fs : FS} (hnod : (fs.files.map Prod.fst).Nodup) (sp : Fpath) :
    ∀ x ∈ includedSrc fs sp, ∀ y ∈ includedSrc fs sp, x.1 = y.1 → x = y := by
  intro x hx y hy hxy
  have hnod' : ((includedSrc fs sp).map Prod.fst).Nodup :=
    ((List.filter_sublist fs.files).map Prod.fst).nodup hnod
  exact List.inj_on_of_nodup_map hnod' hx hy hxy

lemma archiveName_eq_append (sname : String) (v : Json) :
    archiveName sname v = (sname ++ "-" ++ pyStr v) ++ ".skill" := rfl

lemma append_skill_ne_build (x : String) : x ++ ".skill" ≠ "build" := by
  intro e
  have hl := congrArg String.length e
  rw [String.length_append] at hl
  have h1 : (".skill" : String).length = 6 := by decide
  have h2 : ("build" : String).length = 5 := by decide
  omega

lemma append_skill_ne_pj (x : String) : x ++ ".skill" ≠ "package.json" := by
  intro e
  have hl := congrArg String.length e
  rw [String.length_append] at hl
  have h1 : (".skill" : String).length = 6 := by decide
  have h2 : ("package.json" : String).length = 12 := by decide
  have hx : x.length = 6 := by omega
  have hd := congrArg String.data e
  rw [String.data_append] at hd
  have hsplit : ("package.json" : String).data = ("packag" : String).data ++ ("e.json" : String).data := by
    decide
  rw [hsplit] at hd
  have hlen : x.data.length = ("packag" : String).data.length := by
    have : x.data.length = x.length := rfl
    rw [this, hx]
    decide
  have := List.append_inj_right hd hlen
  have hne : (".skill" : String).data ≠ ("e.json" : String).data := by decide
  exact hne this

/-- If the output location does not lie at or below the build directory,
the archive path differs from every path below the build directory. -/
lemma archive_ne_under_build {sp outp : Fpath} {sname : String} {v : Json}
    (hout : (sp ++ ["build"]).isPrefixOf outp = false) (q : Fpath) :
    (sp ++ ["build"]) ++ q ≠ outp ++ [archiveName sname v] := by
  intro he
  by_cases hlen : (sp ++ ["build"]).length ≤ outp.length
  · have h1 : List.take (sp ++ ["build"]).length ((sp ++ ["build"]) ++ q) = sp ++ ["build"] :=
      List.take_left _ _
    rw [he, List.take_append_of_le_length hlen] at h1
    have hpre : (sp ++ ["build"]).isPrefixOf outp = true := by
      rw [List.isPrefixOf_iff_prefix, ← h1]
      exact List.take_prefix _ _
    rw [hpre] at hout
    cases hout
  · have hlq := congrArg List.length he
    simp only [List.length_append, List.length_cons, List.length_nil] at hlq
    have hq : q = [] := by
      cases q with
      | nil => rfl
      | cons a t =>
        have hb : (sp ++ ["build"]).length = sp.length + 1 := by simp
        simp only [List.length_cons] at hlq
        omega
    subst hq
    rw [List.append_nil] at he
    have hlast := congrArg List.getLast? he
    rw [List.getLast?_concat, List.getLast?_concat] at hlast
    have : "build" = archiveName sname v := Option.some.inj hlast
    rw [archiveName_eq_append] at this
    exact append_skill_ne_build _ this.symm

lemma packBody_out_error {fs0 : FS} {sp : Fpath} {od : Option Fpath} {cwd : Fpath}
    {vres : Json × List String} {okMsg : String} {e : String}
    (ho : outputPhase fs0 od cwd = .error e) :
    packBody fs0 sp od cwd vres okMsg = .error e := by
  unfold packBody
  simp only [ho]

lemma packBody_prep_error {fs0 fs1 : FS} {sp : Fpath} {od : Option Fpath} {cwd outp : Fpath}
    {vres : Json × List String} {okMsg : String} {e : String}
    (ho : outputPhase fs0 od cwd = .ok (outp, fs1))
    (hp : prepareBuild fs1 sp = .error e) :
    packBody fs0 sp od cwd vres okMsg = .error e := by
  unfold packBody
  simp only [ho, hp]

lemma packBody_ok_ok {fs0 fs1 fs3 : FS} {sp : Fpath} {od : Option Fpath} {cwd outp : Fpath}
    {vres : Json × List String} {okMsg : String}
    (ho : outputPhase fs0 od cwd = .ok (outp, fs1))
    (hp : prepareBuild fs1 sp = .ok fs3) :
    packBody fs0 sp od cwd vres okMsg =
      .ok ⟨(tryPhase fs3 sp outp vres.1).result, (tryPhase fs3 sp outp vres.1).fs,
        [msgValidating, msgValidOk okMsg] ++ vres.2 ++ [msgPrep (sp ++ ["build"])] ++
          (tryPhase fs3 sp outp vres.1).log⟩ := by
  unfold packBody
  simp only [ho, hp]

/-- Structure of a successful run: the preconditions passed, the
preparation phases succeeded, the zip could be opened, and the result and
final filesystem have the closed `finalFS` form. -/
lemma success_shape {validate : Fpath → FS → Bool × String} {fs0 : FS} {sp : Fpath}
    {od : Option Fpath} {cwd : Fpath}
    (hs : runSuccess (package_skill validate fs0 sp od cwd) = true) :
    ∃ fs1 fs3,
      outputPhase fs0 od cwd = .ok (resolvedOut od cwd, fs1) ∧
      prepareBuild fs1 sp = .ok fs3 ∧
      runResult (package_skill validate fs0 sp od cwd) =
        some (resolvedOut od cwd ++ [archiveName (pathName sp) (readVersion fs0 sp).1]) ∧
      runFS (package_skill validate fs0 sp od cwd) =
        finalFS fs3 sp (resolvedOut od cwd) (readVersion fs0 sp).1 := by
  unfold package_skill at hs ⊢
  by_cases h1 : fs0.pexists sp = false
  · rw [if_pos h1] at hs
    simp [runSuccess, runResult] at hs
  rw [if_neg h1] at hs ⊢
  by_cases h2 : fs0.isDir sp = false
  · rw [if_pos h2] at hs
    simp [runSuccess, runResult] at hs
  rw [if_neg h2] at hs ⊢
  by_cases h3 : fs0.pexists (sp ++ ["SKILL.md"]) = false
  · rw [if_pos h3] at hs
    simp [runSuccess, runResult] at hs
  rw [if_neg h3] at hs ⊢
  by_cases h4 : (validate sp fs0).1 = false
  · rw [if_pos h4] at hs
    simp [runSuccess, runResult] at hs
  rw [if_neg h4] at hs ⊢
  cases ho : outputPhase fs0 od cwd with
  | error e =>
    rw [packBody_out_error ho] at hs
    simp [runSuccess, runResult] at hs
  | ok pr =>
    obtain ⟨outp, fs1⟩ := pr
    obtain ⟨hop, -, -⟩ := outputPhase_ok ho
    subst hop
    cases hp : prepareBuild fs1 sp with
    | error e =>
      rw [packBody_prep_error ho hp] at hs
      simp [runSuccess, runResult] at hs
    | ok fs3 =>
      rw [packBody_ok_ok ho hp] at hs
      rw [packBody_ok_ok ho hp]
      by_cases hz : (fs3.isDir (resolvedOut od cwd) &&
          !fs3.isDir (resolvedOut od cwd ++
            [archiveName (pathName sp) (readVersion fs0 sp).1])) = true
      · refine ⟨fs1, fs3, rfl, hp, ?_, ?_⟩
        · simp only [runResult, tryPhase, if_pos hz]
        · simp only [runFS, tryPhase, if_pos hz]
      · unfold tryPhase at hs
        rw [if_neg hz] at hs
        simp [runSuccess, runResult] at hs

lemma manifest_path_eq (sp : Fpath) :
    sp ++ ["build", "package.json"] = (sp ++ ["build"]) ++ ["package.json"] := by
  simp

lemma finalFS_read_archive {fs3 : FS} {sp outp : Fpath} {v : Json}
    (hout : (sp ++ ["build"]).isPrefixOf outp = false) :
    (finalFS fs3 sp outp v).read (outp ++ [archiveName (pathName sp) v]) =
      some (.zipData ((includedSrc fs3 sp).map
        (fun e => (pathName sp :: relOf sp e.1, e.2)))) := by
  have hne : outp ++ [archiveName (pathName sp) v] ≠ sp ++ ["build", "package.json"] := by
    rw [manifest_path_eq]
    exact (archive_ne_under_build hout ["package.json"]).symm
  unfold finalFS
  rw [read_writeFile_ne _ _ _ _ hne, read_writeFile_self]

lemma finalFS_read_manifest (fs3 : FS) (sp outp : Fpath) (v : Json) :
    (finalFS fs3 sp outp v).read (sp ++ ["build", "package.json"]) =
      some (.json (manifestJson v)) := by
  unfold finalFS
  rw [read_writeFile_self]

lemma finalFS_read_build {fs3 : FS} {sp outp : Fpath} {v : Json} {q : Fpath}
    (hq : q ≠ ["package.json"])
    (hout : (sp ++ ["build"]).isPrefixOf outp = false)
    (hnone : fs3.read ((sp ++ ["build"]) ++ q) = none)
    (hnod : (fs3.files.map Prod.fst).Nodup) :
    (finalFS fs3 sp outp v).read ((sp ++ ["build"]) ++ q) =
      ((includedSrc fs3 sp).find? (fun e => relOf sp e.1 == q)).map (·.2) := by
  have h1 : (sp ++ ["build"]) ++ q ≠ sp ++ ["build", "package.json"] := by
    rw [manifest_path_eq]
    intro he
    exact hq (List.append_cancel_left he)
  unfold finalFS
  rw [read_writeFile_ne _ _ _ _ h1,
    read_writeFile_ne _ _ _ _ (archive_ne_under_build hout q),
    read_copyFold, hnone]
  have hpred : ∀ e ∈ (includedSrc fs3 sp).reverse,
      (fun e => copyDest sp e.1 == (sp ++ ["build"]) ++ q) e =
        (fun e => relOf sp e.1 == q) e := by
    intro e _
    show (copyDest sp e.1 == (sp ++ ["build"]) ++ q) = (relOf sp e.1 == q)
    cases hrel : (relOf sp e.1 == q) with
    | true =>
      have h2 : relOf sp e.1 = q := eq_of_beq hrel
      simp [copyDest, h2]
    | false =>
      cases hcd : (copyDest sp e.1 == (sp ++ ["build"]) ++ q) with
      | false => rfl
      | true =>
        have h2 : copyDest sp e.1 = (sp ++ ["build"]) ++ q := eq_of_beq hcd
        unfold copyDest at h2
        have h3 : relOf sp e.1 = q := List.append_cancel_left h2
        rw [h3] at hrel
        simp at hrel
  rw [find?_congr_mem _ _ _ hpred, find?_reverse_of_unique _ _ ?uniq]
  · exact Option.or_none
  case uniq =>
    intro x hx y hy hxq hyq
    have hx' := includedSrc_isUnder hx
    have hy' := includedSrc_isUnder hy
    have hxy : x.1 = y.1 :=
      isUnder_inj hx'.2.1 hy'.2.1 ((eq_of_beq hxq).trans (eq_of_beq hyq).symm)
    exact includedSrc_key_unique hnod sp x hx y hy hxy

/-- Full characterization of a successful run on a well-formed filesystem
whose output location is not at or below the build directory: the returned
archive path and name, the archive entries, the generated manifest, and the
exact contents of the build directory. -/
lemma run_characterization {validate : Fpath → FS → Bool × String} {fs0 : FS}
    {sp : Fpath} {od : Option Fpath} {cwd : Fpath}
    (hwf : fs0.Wf)
    (hout : (sp ++ ["build"]).isPrefixOf (resolvedOut od cwd) = false)
    (hs : runSuccess (package_skill validate fs0 sp od cwd) = true) :
    runResult (package_skill validate fs0 sp od cwd) =
      some (resolvedOut od cwd ++ [archiveName (pathName sp) (readVersion fs0 sp).1]) ∧
    (runFS (package_skill validate fs0 sp od cwd)).read
        (resolvedOut od cwd ++ [archiveName (pathName sp) (readVersion fs0 sp).1]) =
      some (.zipData ((includedSrc fs0 sp).map
        (fun e => (pathName sp :: relOf sp e.1, e.2)))) ∧
    (runFS (package_skill validate fs0 sp od cwd)).read (sp ++ ["build", "package.json"]) =
      some (.json (manifestJson (readVersion fs0 sp).1)) ∧
    ∀ q, q ≠ ["package.json"] →
      (runFS (package_skill validate fs0 sp od cwd)).read ((sp ++ ["build"]) ++ q) =
        ((includedSrc fs0 sp).find? (fun e => relOf sp e.1 == q)).map (·.2) := by
  obtain ⟨fs1, fs3, ho, hp, hres, hfs⟩ := success_shape hs
  obtain ⟨-, hfiles, hdirs⟩ := outputPhase_ok ho
  have hinc : includedSrc fs3 sp = includedSrc fs0 sp :=
    (includedSrc_prepare hp).trans (includedSrc_files_eq hfiles sp)
  have hnod3 : (fs3.files.map Prod.fst).Nodup := by
    rcases prepareBuild_ok hp with hf | ⟨hf, -⟩
    · rw [hf, hfiles]
      exact ((List.filter_sublist _).map Prod.fst).nodup hwf.1
    · rw [hf, hfiles]
      exact hwf.1
  have hwf1 : ∀ e ∈ fs1.files, ∀ i ∈ List.range e.1.length, e.1.take i ∈ fs1.dirs := by
    intro e he i hi
    rw [hfiles] at he
    exact hdirs _ (hwf.2 e he i hi)
  have hnone := prepareBuild_no_files hwf1 hp
  refine ⟨hres, ?_, ?_, ?_⟩
  · rw [hfs, finalFS_read_archive hout, hinc]
  · rw [hfs, finalFS_read_manifest]
  · intro q hq
    rw [hfs, finalFS_read_build hq hout (hnone q) hnod3, hinc]

/-! ### Claim-level helper lemmas -/

lemma archiveEntries_eq {validate : Fpath → FS → Bool × String} {fs0 : FS}
    {sp : Fpath} {od : Option Fpath} {cwd : Fpath}
    (hwf : fs0.Wf)
    (hout : (sp ++ ["build"]).isPrefixOf (resolvedOut od cwd) = false)
    (hs : runSuccess (package_skill validate fs0 sp od cwd) = true) :
    archiveEntries (package_skill validate fs0 sp od cwd) =
      (includedSrc fs0 sp).map (fun e => (pathName sp :: relOf sp e.1, e.2)) := by
  obtain ⟨hres, hzip, -, -⟩ := run_characterization hwf hout hs
  unfold archiveEntries
  simp only [hres, hzip]

lemma build_read_included {validate : Fpath → FS → Bool × String} {fs0 : FS}
    {sp : Fpath} {od : Option Fpath} {cwd : Fpath}
    (hwf : fs0.Wf)
    (hout : (sp ++ ["build"]).isPrefixOf (resolvedOut od cwd) = false)
    (hs : runSuccess (package_skill validate fs0 sp od cwd) = true) :
    ∀ e ∈ includedSrc fs0 sp, relOf sp e.1 ≠ ["package.json"] →
      (runFS (package_skill validate fs0 sp od cwd)).read
          ((sp ++ ["build"]) ++ relOf sp e.1) = some e.2 := by
  obtain ⟨-, -, -, hbuild⟩ := run_characterization hwf hout hs
  intro e he hne
  rw [hbuild _ hne]
  cases hf : (includedSrc fs0 sp).find? (fun x => relOf sp x.1 == relOf sp e.1) with
  | none =>
    rw [List.find?_eq_none] at hf
    exact absurd (by simp : (relOf sp e.1 == relOf sp e.1) = true) (hf e he)
  | some x =>
    have hx := List.mem_of_find?_eq_some hf
    have hpx := List.find?_some hf
    have hxe : x = e :=
      includedSrc_key_unique hwf.1 sp x hx e he
        (isUnder_inj (includedSrc_isUnder hx).2.1 (includedSrc_isUnder he).2.1
          (eq_of_beq hpx))
    rw [hxe]
    rfl

lemma build_read_no_match {validate : Fpath → FS → Bool × String} {fs0 : FS}
    {sp : Fpath} {od : Option Fpath} {cwd : Fpath}
    (hwf : fs0.Wf)
    (hout : (sp ++ ["build"]).isPrefixOf (resolvedOut od cwd) = false)
    (hs : runSuccess (package_skill validate fs0 sp od cwd) = true) :
    ∀ q, q ≠ ["package.json"] →
      (includedSrc fs0 sp).find? (fun e => relOf sp e.1 == q) = none →
      (runFS (package_skill validate fs0 sp od cwd)).read ((sp ++ ["build"]) ++ q) = none := by
  obtain ⟨-, -, -, hbuild⟩ := run_characterization hwf hout hs
  intro q hne hf
  rw [hbuild _ hne, hf]
  rfl

lemma pexists_of_read_some {fs : FS} {p : Fpath} {d : FileData}
    (h : fs.read p = some d) : fs.pexists p = true := by
  unfold FS.pexists FS.isFile
  rw [h]
  rfl

lemma ne_append_of_head (p1 p2 s1 s2 : String) (i : Nat)
    (h1 : i < p1.data.length) (h2 : i < p2.data.length)
    (h3 : p1.data[i]? ≠ p2.data[i]?) : p1 ++ s1 ≠ p2 ++ s2 := by
  intro e
  have he : (p1 ++ s1).data[i]? = (p2 ++ s2).data[i]? := by rw [e]
  rw [String.data_append, String.data_append,
    List.getElem?_append_left h1, List.getElem?_append_left h2] at he
  exact h3 he

lemma shouldSkip_of_ancestor {sp p : Fpath}
    (hcomp : hasExcludedAncestor sp = true) (hpre : sp.isPrefixOf p = true) :
    shouldSkip p = true := by
  have hmem : ∀ c : String, sp.contains c = true → p.contains c = true := by
    intro c hc
    have hcs : c ∈ sp := by simpa using hc
    have hcp : c ∈ p := ((List.isPrefixOf_iff_prefix.mp hpre).sublist).mem hcs
    simpa using hcp
  unfold hasExcludedAncestor excludedComponents at hcomp
  rw [List.any_eq_true] at hcomp
  obtain ⟨c, hcl, hc⟩ := hcomp
  simp only [List.mem_cons, List.mem_singleton] at hcl
  rcases hcl with rfl | rfl | rfl | rfl | rfl | rfl | rfl | hfalse
  · unfold shouldSkip; rw [hmem _ hc]; simp
  · unfold shouldSkip; rw [hmem _ hc]; simp
  · unfold shouldSkip; rw [hmem _ hc]; simp
  · unfold shouldSkip; rw [hmem _ hc]; simp
  · unfold shouldSkip; rw [hmem _ hc]; simp
  · unfold shouldSkip; rw [hmem _ hc]; simp
  · unfold shouldSkip; rw [hmem _ hc]; simp
  · cases hfalse

lemma includedSrc_nil_of_ancestor (fs : FS) {sp : Fpath}
    (hcomp : hasExcludedAncestor sp = true) :
    includedSrc fs sp = [] := by
  unfold includedSrc
  rw [List.filter_eq_nil_iff]
  intro x _
  cases hu : isUnder sp x.1 with
  | false => simp [hu]
  | true =>
    unfold isUnder at hu
    simp only [Bool.and_eq_true] at hu
    have := shouldSkip_of_ancestor hcomp hu.1
    simp [this, hu]

/-- The exclusion rule as worded in the claims coincides with the loop
filter of the source. -/
lemma claimExcluded_eq_shouldSkip (p : Fpath) : claimExcluded p = shouldSkip p := by
  have hb : ∀ a b : Bool, (a = true ↔ b = true) → a = b := by
    intro a b h
    cases a with
    | true => exact (h.mp rfl).symm
    | false =>
      cases hbb : b with
      | true => exact absurd (h.mpr hbb) (by simp)
      | false => rfl
  apply hb
  unfold claimExcluded shouldSkip
  simp only [Bool.or_eq_true]
  tauto

/-! ### Concrete fixtures -/

/-- A validator that accepts everything. -/
def vOk : Fpath → FS → Bool × String := fun _ _ => (true, "Skill is valid!")

/-- A validator that rejects everything. -/
def vBad : Fpath → FS → Bool × String := fun _ _ => (false, "bad skill")

def fsW : FS :=
  ⟨[(["skw", "SKILL.md"], .raw [1]), (["skw", "notes.md"], .raw [2, 3]),
    (["skw", "rules", "r.md"], .raw [4])],
   [[], ["skw"], ["skw", "rules"], ["w"]]⟩

def fsC1 : FS :=
  ⟨[(["sk", "SKILL.md"], .raw [1])], [[], ["sk"], ["w"]]⟩

def fsC2 : FS :=
  ⟨[(["s2", "SKILL.md"], .raw [1]),
    (["s2", "package.json"], .json (.obj [("version", .str "2.3.1")]))],
   [[], ["s2"], ["w"]]⟩

def fsC5 : FS :=
  ⟨[(["s5", "SKILL.md"], .raw [1]),
    (["s5", "package.json"], .json (.obj [("version", .str "2.3.1")]))],
   [[], ["s5"], ["w"]]⟩

def fsC6 : FS :=
  ⟨[(["s6", "SKILL.md"], .raw [1]), (["s6", "package.json"], .raw [7, 7])],
   [[], ["s6"], ["w"]]⟩

def fsA7 : FS :=
  ⟨[(["s7", "SKILL.md"], .raw [1])],
   [[], ["s7"], ["w"], ["w", "s7-1.0.0.skill"]]⟩

def fsB7 : FS :=
  ⟨[(["s7", "SKILL.md"], .raw [1]),
    (["s7", "package.json"], .json (.obj [("version", .str "2.0.0")]))],
   [[], ["s7"], ["w"], ["w", "s7-1.0.0.skill"]]⟩

def fsC8 : FS :=
  ⟨[(["s8", "SKILL.md"], .raw [1]), (["s8", "build"], .raw [2])],
   [[], ["s8"], ["w"]]⟩

def fsC9 : FS :=
  ⟨[(["s9", "SKILL.md"], .raw [1]), (["s9", "a.md"], .raw [5]),
    (["s9", "build", "old.txt"], .raw [9])],
   [[], ["s9"], ["s9", "build"], ["w"]]⟩

def fsC10 : FS :=
  ⟨[(["h", "rules", "s10", "SKILL.md"], .raw [1]),
    (["h", "rules", "s10", "doc.md"], .raw [2])],
   [[], ["h"], ["h", "rules"], ["h", "rules", "s10"], ["w"]]⟩

/-! ### The claims -/

/-- **C1 (amended)**: for every successful run of `package_skill` on a
well-formed filesystem whose output location is not the build directory
itself (or inside it), the archive entries are exactly the filtered source
files with the skill-folder name prefixed to their build-relative paths and
their source contents, the build directory holds the generated manifest at
`package.json`, and every other path below the build directory holds
exactly the mirrored filtered file (the mirrored and archived sets
coincide).  When the output location is the build directory, the archive
file itself additionally lands inside the build directory — see the
counterexample. -/
theorem claim1_amended (validate : Fpath → FS → Bool × String) (fs0 : FS)
    (sp : Fpath) (od : Option Fpath) (cwd : Fpath)
    (hwf : fs0.Wf)
    (hout : (sp ++ ["build"]).isPrefixOf (resolvedOut od cwd) = false)
    (hs : runSuccess (package_skill validate fs0 sp od cwd) = true) :
    archiveEntries (package_skill validate fs0 sp od cwd) =
      (includedSrc fs0 sp).map (fun e => (pathName sp :: relOf sp e.1, e.2)) ∧
    (runFS (package_skill validate fs0 sp od cwd)).read (sp ++ ["build", "package.json"]) =
      some (.json (manifestJson (readVersion fs0 sp).1)) ∧
    (∀ q, q ≠ ["package.json"] →
      (runFS (package_skill validate fs0 sp od cwd)).read ((sp ++ ["build"]) ++ q) =
        ((includedSrc fs0 sp).find? (fun e => relOf sp e.1 == q)).map (·.2)) := by
  obtain ⟨-, -, hman, hbuild⟩ := run_characterization hwf hout hs
  exact ⟨archiveEntries_eq hwf hout hs, hman, hbuild⟩

/-- **C1 (counterexample)**: with output directory equal to the build
directory itself the run succeeds and the build directory contains, besides
the manifest and the mirrored files, the archive `sk-1.0.0.skill` — so the
claimed invariant "the build directory additionally contains exactly one
generated manifest" fails as stated. -/
theorem claim1_counterexample :
    runSuccess (package_skill vOk fsC1 ["sk"] (some ["sk", "build"]) ["w"]) = true ∧
    (runFS (package_skill vOk fsC1 ["sk"] (some ["sk", "build"]) ["w"])).read
        ["sk", "build", "sk-1.0.0.skill"] =
      some (.zipData [(["sk", "SKILL.md"], .raw [1])]) ∧
    (∀ e ∈ includedSrc fsC1 ["sk"], relOf ["sk"] e.1 ≠ ["sk-1.0.0.skill"]) ∧
    (["sk-1.0.0.skill"] : Fpath) ≠ ["package.json"] := by
  refine ⟨rfl, rfl, ?_, by decide⟩
  intro e he
  have : includedSrc fsC1 ["sk"] = [(["sk", "SKILL.md"], .raw [1])] := rfl
  rw [this] at he
  have he2 := List.mem_singleton.mp he
  subst he2
  decide

/-- **C1 (witness)**: the amended claim applied to a concrete three-file
skill folder. -/
theorem claim1_witness :
    archiveEntries (package_skill vOk fsW ["skw"] none ["w"]) =
      (includedSrc fsW ["skw"]).map (fun e => (pathName ["skw"] :: relOf ["skw"] e.1, e.2)) ∧
    (runFS (package_skill vOk fsW ["skw"] none ["w"])).read ["skw", "build", "package.json"] =
      some (.json (manifestJson (.str "1.0.0"))) := by
  have h := claim1_amended vOk fsW ["skw"] none ["w"] (by decide) (by decide) (by rfl)
  exact ⟨h.1, h.2.1⟩

/-- **C2 (amended)**: for every source file below the skill folder of a
successful run (well-formed filesystem, output location not at or below the
build directory): if the claim's exclusion rule matches it, it appears
neither among the archive entries nor (unless its relative path is
`package.json`) in the build directory; otherwise it appears in the archive
and in the build directory — except that a root-level `package.json`, while
archived, has its build-directory copy replaced by the generated
manifest. -/
theorem claim2_amended (validate : Fpath → FS → Bool × String) (fs0 : FS)
    (sp : Fpath) (od : Option Fpath) (cwd : Fpath)
    (hwf : fs0.Wf)
    (hout : (sp ++ ["build"]).isPrefixOf (resolvedOut od cwd) = false)
    (hs : runSuccess (package_skill validate fs0 sp od cwd) = true) :
    ∀ p c, (p, c) ∈ fs0.files → isUnder sp p = true →
      (claimExcluded p = true →
        (pathName sp :: relOf sp p, c) ∉
            archiveEntries (package_skill validate fs0 sp od cwd) ∧
        (relOf sp p ≠ ["package.json"] →
          (runFS (package_skill validate fs0 sp od cwd)).read
            ((sp ++ ["build"]) ++ relOf sp p) = none)) ∧
      (claimExcluded p = false →
        (pathName sp :: relOf sp p, c) ∈
            archiveEntries (package_skill validate fs0 sp od cwd) ∧
        (relOf sp p ≠ ["package.json"] →
          (runFS (package_skill validate fs0 sp od cwd)).read
            ((sp ++ ["build"]) ++ relOf sp p) = some c) ∧
        (relOf sp p = ["package.json"] →
          (runFS (package_skill validate fs0 sp od cwd)).read
            ((sp ++ ["build"]) ++ relOf sp p) =
          some (.json (manifestJson (readVersion fs0 sp).1)))) := by
  intro p c hmem hu
  have hae := archiveEntries_eq hwf hout hs
  constructor
  · intro hex
    have hsk : shouldSkip p = true := (claimExcluded_eq_shouldSkip p) ▸ hex
    constructor
    · rw [hae]
      intro hmm
      obtain ⟨e, he, heq⟩ := List.mem_map.mp hmm
      have h1 : relOf sp e.1 = relOf sp p := by
        have h0 := congrArg Prod.fst heq
        simpa using h0
      have h2 : e.1 = p := isUnder_inj (includedSrc_isUnder he).2.1 hu h1
      have h3 := (includedSrc_isUnder he).2.2
      rw [h2, hsk] at h3
      cases h3
    · intro hne
      apply build_read_no_match hwf hout hs _ hne
      rw [List.find?_eq_none]
      intro x hx hbeq
      have h2 : x.1 = p := isUnder_inj (includedSrc_isUnder hx).2.1 hu (eq_of_beq hbeq)
      have h3 := (includedSrc_isUnder hx).2.2
      rw [h2, hsk] at h3
      cases h3
  · intro hinc
    have hsk : shouldSkip p = false := (claimExcluded_eq_shouldSkip p) ▸ hinc
    have hin : (p, c) ∈ includedSrc fs0 sp :=
      List.mem_filter.mpr ⟨hmem, by simp [hu, hsk]⟩
    refine ⟨?_, ?_, ?_⟩
    · rw [hae]
      exact List.mem_map.mpr ⟨(p, c), hin, rfl⟩
    · intro hne
      exact build_read_included hwf hout hs (p, c) hin hne
    · intro hpj
      obtain ⟨-, -, hman, -⟩ := run_characterization hwf hout hs
      rw [hpj, ← manifest_path_eq]
      exact hman

/-- **C2 (counterexample)**: a root-level `package.json` is not excluded and
is archived, yet at the end of the run its build-directory copy holds the
generated manifest, which differs from the source content — the file does
not "appear in both" as the claim states. -/
theorem claim2_counterexample :
    claimExcluded ["s2", "package.json"] = false ∧
    runSuccess (package_skill vOk fsC2 ["s2"] none ["w"]) = true ∧
    (["s2", "package.json"],
        FileData.json (.obj [("version", Json.str "2.3.1")])) ∈
      archiveEntries (package_skill vOk fsC2 ["s2"] none ["w"]) ∧
    (runFS (package_skill vOk fsC2 ["s2"] none ["w"])).read ["s2", "build", "package.json"] =
      some (.json (manifestJson (.str "2.3.1"))) ∧
    manifestJson (.str "2.3.1") ≠ .obj [("version", .str "2.3.1")] := by
  refine ⟨by decide, rfl, ?_, rfl, ?_⟩
  · have h : archiveEntries (package_skill vOk fsC2 ["s2"] none ["w"]) =
        [(["s2", "SKILL.md"], FileData.raw [1]),
         (["s2", "package.json"], FileData.json (.obj [("version", Json.str "2.3.1")]))] := rfl
    rw [h]
    exact List.mem_cons_of_mem _ (List.mem_cons_self _ _)
  · intro h
    have h2 := congrArg (fun j => match j with | Json.obj l => l.length | _ => 0) h
    simp [manifestJson] at h2

/-- **C2 (witness)**: the amended claim applied to a concrete skill folder:
the plain file is mirrored, the file under `rules/` is absent from the
build directory. -/
theorem claim2_witness :
    (runFS (package_skill vOk fsW ["skw"] none ["w"])).read ["skw", "build", "notes.md"] =
      some (.raw [2, 3]) ∧
    (runFS (package_skill vOk fsW ["skw"] none ["w"])).read ["skw", "build", "rules", "r.md"] =
      none := by
  have h := claim2_amended vOk fsW ["skw"] none ["w"] (by decide) (by decide) (by rfl)
  constructor
  · exact ((h ["skw", "notes.md"] (.raw [2, 3])
      (List.mem_cons_of_mem _ (List.mem_cons_self _ _)) (by decide)).2 (by decide)).2.1
      (by decide)
  · exact ((h ["skw", "rules", "r.md"] (.raw [4])
      (List.mem_cons_of_mem _ (List.mem_cons_of_mem _ (List.mem_cons_self _ _)))
      (by decide)).1 (by decide)).2 (by decide)

/-- **C3**: the four preconditions are checked in order — path exists, is a
directory, contains `SKILL.md`, passes the validator — the first failing one
produces its own distinct message and a `none` result with the filesystem
untouched, and, the statement being universally quantified over `validate`,
each failing stage's outcome is independent of anything later (the
validator is not consulted when an earlier check fails). -/
theorem claim3 (validate : Fpath → FS → Bool × String) (fs0 : FS) (sp : Fpath)
    (od : Option Fpath) (cwd : Fpath) :
    (fs0.pexists sp = false →
      package_skill validate fs0 sp od cwd = .ok ⟨none, fs0, [msgNotFound sp]⟩) ∧
    (fs0.pexists sp = true → fs0.isDir sp = false →
      package_skill validate fs0 sp od cwd = .ok ⟨none, fs0, [msgNotDir sp]⟩) ∧
    (fs0.pexists sp = true → fs0.isDir sp = true →
      fs0.pexists (sp ++ ["SKILL.md"]) = false →
      package_skill validate fs0 sp od cwd = .ok ⟨none, fs0, [msgNoSkillMd sp]⟩) ∧
    (fs0.pexists sp = true → fs0.isDir sp = true →
      fs0.pexists (sp ++ ["SKILL.md"]) = true → (validate sp fs0).1 = false →
      package_skill validate fs0 sp od cwd =
        .ok ⟨none, fs0, [msgValidating, msgInvalid (validate sp fs0).2, msgFixHint]⟩) ∧
    (msgNotFound sp ≠ msgNotDir sp ∧ msgNotFound sp ≠ msgNoSkillMd sp ∧
      msgNotDir sp ≠ msgNoSkillMd sp ∧
      ∀ m, msgNotFound sp ≠ msgInvalid m ∧ msgNotDir sp ≠ msgInvalid m ∧
        msgNoSkillMd sp ≠ msgInvalid m) := by
  refine ⟨?_, ?_, ?_, ?_, ?_, ?_, ?_, fun m => ⟨?_, ?_, ?_⟩⟩
  · intro h1
    unfold package_skill
    rw [if_pos h1]
  · intro h1 h2
    unfold package_skill
    rw [if_neg (by simp [h1]), if_pos h2]
  · intro h1 h2 h3
    unfold package_skill
    rw [if_neg (by simp [h1]), if_neg (by simp [h2]), if_pos h3]
  · intro h1 h2 h3 h4
    unfold package_skill
    rw [if_neg (by simp [h1]), if_neg (by simp [h2]), if_neg (by simp [h3]), if_pos h4]
  · unfold msgNotFound msgNotDir
    exact ne_append_of_head _ _ _ _ 9 (by decide) (by decide) (by decide)
  · unfold msgNotFound msgNoSkillMd
    exact ne_append_of_head _ _ _ _ 10 (by decide) (by decide) (by decide)
  · unfold msgNotDir msgNoSkillMd
    exact ne_append_of_head _ _ _ _ 9 (by decide) (by decide) (by decide)
  · unfold msgNotFound msgInvalid
    exact ne_append_of_head _ _ _ _ 2 (by decide) (by decide) (by decide)
  · unfold msgNotDir msgInvalid
    exact ne_append_of_head _ _ _ _ 2 (by decide) (by decide) (by decide)
  · unfold msgNoSkillMd msgInvalid
    exact ne_append_of_head _ _ _ _ 2 (by decide) (by decide) (by decide)

/-- An empty filesystem with only a root directory. -/
def fsE : FS := ⟨[], [[]]⟩

/-- **C3 (witness)**: a missing skill folder yields the stage-1 message and
a null result, and that message differs from the validation-failure one. -/
theorem claim3_witness :
    package_skill vOk fsE ["nope"] none [] = .ok ⟨none, fsE, [msgNotFound ["nope"]]⟩ ∧
    msgNotFound ["nope"] ≠ msgInvalid "bad skill" := by
  have h := claim3 vOk fsE ["nope"] none []
  exact ⟨h.1 (by decide), (h.2.2.2.2.2.2.2 "bad skill").1⟩

/-- **C4**: whenever any of the four preconditions fails, the run returns a
null result and the filesystem is exactly the initial one — no archive is
created and no pre-existing `build/` directory is touched. -/
theorem claim4 (validate : Fpath → FS → Bool × String) (fs0 : FS) (sp : Fpath)
    (od : Option Fpath) (cwd : Fpath)
    (h : (fs0.pexists sp && fs0.isDir sp && fs0.pexists (sp ++ ["SKILL.md"]) &&
      (validate sp fs0).1) = false) :
    runResult (package_skill validate fs0 sp od cwd) = none ∧
    runFS (package_skill validate fs0 sp od cwd) = fs0 := by
  unfold package_skill
  by_cases h1 : fs0.pexists sp = false
  · rw [if_pos h1]; exact ⟨rfl, rfl⟩
  have h1t : fs0.pexists sp = true := by
    cases hb : fs0.pexists sp
    · exact absurd hb h1
    · rfl
  rw [if_neg h1]
  by_cases h2 : fs0.isDir sp = false
  · rw [if_pos h2]; exact ⟨rfl, rfl⟩
  have h2t : fs0.isDir sp = true := by
    cases hb : fs0.isDir sp
    · exact absurd hb h2
    · rfl
  rw [if_neg h2]
  by_cases h3 : fs0.pexists (sp ++ ["SKILL.md"]) = false
  · rw [if_pos h3]; exact ⟨rfl, rfl⟩
  have h3t : fs0.pexists (sp ++ ["SKILL.md"]) = true := by
    cases hb : fs0.pexists (sp ++ ["SKILL.md"])
    · exact absurd hb h3
    · rfl
  rw [if_neg h3]
  by_cases h4 : (validate sp fs0).1 = false
  · rw [if_pos h4]; exact ⟨rfl, rfl⟩
  have h4t : (validate sp fs0).1 = true := by
    cases hb : (validate sp fs0).1
    · exact absurd hb h4
    · rfl
  rw [h1t, h2t, h3t, h4t] at h
  simp at h

/-- **C4 (witness)**: a rejecting validator leaves the filesystem untouched
and returns no archive path. -/
theorem claim4_witness :
    runResult (package_skill vBad fsW ["skw"] none ["w"]) = none ∧
    runFS (package_skill vBad fsW ["skw"] none ["w"]) = fsW :=
  claim4 vBad fsW ["skw"] none ["w"] (by decide)

/-- **C5**: on success the archive lands at
`<output-dir-or-cwd>/<skill-name>-<version>.skill`; a root `package.json`
parsing to an object with a string `version` field yields that string, and
an absent `package.json` yields `1.0.0`. -/
theorem claim5 (validate : Fpath → FS → Bool × String) (fs0 : FS) (sp : Fpath)
    (od : Option Fpath) (cwd : Fpath)
    (hs : runSuccess (package_skill validate fs0 sp od cwd) = true) :
    runResult (package_skill validate fs0 sp od cwd) =
      some (resolvedOut od cwd ++
        [pathName sp ++ "-" ++ pyStr (readVersion fs0 sp).1 ++ ".skill"]) ∧
    (∀ vs : String, fs0.read (sp ++ ["package.json"]) =
        some (.json (.obj [("version", .str vs)])) →
      runResult (package_skill validate fs0 sp od cwd) =
        some (resolvedOut od cwd ++ [pathName sp ++ "-" ++ vs ++ ".skill"])) ∧
    (fs0.pexists (sp ++ ["package.json"]) = false →
      runResult (package_skill validate fs0 sp od cwd) =
        some (resolvedOut od cwd ++ [pathName sp ++ "-" ++ "1.0.0" ++ ".skill"])) := by
  obtain ⟨fs1, fs3, ho, hp, hres, hfs⟩ := success_shape hs
  refine ⟨hres, ?_, ?_⟩
  · intro vs hread
    have hv : readVersion fs0 sp = (.str vs, [msgDetected (.str vs)]) := by
      unfold readVersion
      rw [if_pos (pexists_of_read_some hread), hread]
      rfl
    rw [hres, hv]
    rfl
  · intro hab
    have hv : readVersion fs0 sp = (.str "1.0.0", []) := by
      unfold readVersion
      rw [if_neg (by simp [hab])]
    rw [hres, hv]
    rfl

/-- **C5 (witness)**: `{"version": "2.3.1"}` yields the `-2.3.1.skill`
suffix; no `package.json` yields `-1.0.0.skill`. -/
theorem claim5_witness :
    runResult (package_skill vOk fsC5 ["s5"] none ["w"]) = some ["w", "s5-2.3.1.skill"] ∧
    runResult (package_skill vOk fsW ["skw"] none ["w"]) = some ["w", "skw-1.0.0.skill"] := by
  constructor
  · exact (claim5 vOk fsC5 ["s5"] none ["w"] (by rfl)).2.1 "2.3.1" rfl
  · exact (claim5 vOk fsW ["skw"] none ["w"] (by rfl)).2.2 (by decide)

/-- **C6 (amended)**: every included file's archive entry carries the source
content, and its build-directory copy carries the source content too —
except a file whose build-relative path is `package.json`, whose copy is
overwritten by the generated manifest at the end of the run. -/
theorem claim6_amended (validate : Fpath → FS → Bool × String) (fs0 : FS)
    (sp : Fpath) (od : Option Fpath) (cwd : Fpath)
    (hwf : fs0.Wf)
    (hout : (sp ++ ["build"]).isPrefixOf (resolvedOut od cwd) = false)
    (hs : runSuccess (package_skill validate fs0 sp od cwd) = true) :
    (∀ e ∈ includedSrc fs0 sp,
      (pathName sp :: relOf sp e.1, e.2) ∈
        archiveEntries (package_skill validate fs0 sp od cwd)) ∧
    (∀ e ∈ includedSrc fs0 sp, relOf sp e.1 ≠ ["package.json"] →
      (runFS (package_skill validate fs0 sp od cwd)).read
        ((sp ++ ["build"]) ++ relOf sp e.1) = some e.2) ∧
    (∀ e ∈ includedSrc fs0 sp, relOf sp e.1 = ["package.json"] →
      (runFS (package_skill validate fs0 sp od cwd)).read
        ((sp ++ ["build"]) ++ relOf sp e.1) =
      some (.json (manifestJson (readVersion fs0 sp).1))) := by
  refine ⟨?_, build_read_included hwf hout hs, ?_⟩
  · intro e he
    rw [archiveEntries_eq hwf hout hs]
    exact List.mem_map.mpr ⟨e, he, rfl⟩
  · intro e he hpj
    obtain ⟨-, -, hman, -⟩ := run_characterization hwf hout hs
    rw [hpj, ← manifest_path_eq]
    exact hman

/-- **C6 (counterexample)**: a root `package.json` (raw, unparsable content
`[7, 7]`) is archived with its source bytes, but its build-directory copy at
the end of the run is the generated manifest, not the source bytes. -/
theorem claim6_counterexample :
    runSuccess (package_skill vOk fsC6 ["s6"] none ["w"]) = true ∧
    (["s6", "package.json"], FileData.raw [7, 7]) ∈
      archiveEntries (package_skill vOk fsC6 ["s6"] none ["w"]) ∧
    (runFS (package_skill vOk fsC6 ["s6"] none ["w"])).read ["s6", "build", "package.json"] =
      some (.json (manifestJson (.str "1.0.0"))) ∧
    some (FileData.json (manifestJson (.str "1.0.0"))) ≠ some (FileData.raw [7, 7]) := by
  refine ⟨rfl, ?_, rfl, ?_⟩
  · have h : archiveEntries (package_skill vOk fsC6 ["s6"] none ["w"]) =
        [(["s6", "SKILL.md"], FileData.raw [1]),
         (["s6", "package.json"], FileData.raw [7, 7])] := rfl
    rw [h]
    exact List.mem_cons_of_mem _ (List.mem_cons_self _ _)
  · intro h
    have h2 := congrArg
      (fun x => match x with | some (FileData.raw _) => (0 : Nat) | _ => 1) h
    simp at h2

/-- **C6 (witness)**: the amended claim applied to a concrete skill folder:
the mirrored copy of `notes.md` holds the source content, and its archive
entry is present. -/
theorem claim6_witness :
    (runFS (package_skill vOk fsW ["skw"] none ["w"])).read ["skw", "build", "notes.md"] =
      some (.raw [2, 3]) ∧
    (["skw", "notes.md"], FileData.raw [2, 3]) ∈
      archiveEntries (package_skill vOk fsW ["skw"] none ["w"]) := by
  have h := claim6_amended vOk fsW ["skw"] none ["w"] (by decide) (by decide) (by rfl)
  have hinc : includedSrc fsW ["skw"] =
      [(["skw", "SKILL.md"], FileData.raw [1]), (["skw", "notes.md"], FileData.raw [2, 3])] :=
    rfl
  have hmem : (["skw", "notes.md"], FileData.raw [2, 3]) ∈ includedSrc fsW ["skw"] := by
    rw [hinc]
    exact List.mem_cons_of_mem _ (List.mem_cons_self _ _)
  refine ⟨h.2.1 _ hmem (by decide), ?_⟩
  have h2 := h.1 _ hmem
  exact h2

/-- **C7 (amended)**: version discovery is total and never aborts the run:
an absent `package.json` silently yields `1.0.0` with no message; an
unreadable (directory), unparsable, or non-object document yields `1.0.0`
with the warning; an object without a `version` key yields `1.0.0`
reported as the detected version (no warning); and whenever the four
preconditions pass the run proceeds into the packaging body with whatever
version discovery produced.  The discovery outcome does influence the rest
of the run through the archive file name — see the counterexample. -/
theorem claim7_amended (validate : Fpath → FS → Bool × String) (fs0 : FS) (sp : Fpath)
    (od : Option Fpath) (cwd : Fpath) :
    (fs0.pexists (sp ++ ["package.json"]) = false →
      readVersion fs0 sp = (.str "1.0.0", [])) ∧
    (fs0.pexists (sp ++ ["package.json"]) = true →
      fs0.read (sp ++ ["package.json"]) = none →
      readVersion fs0 sp = (.str "1.0.0", [msgVersionWarn])) ∧
    (∀ bs, fs0.read (sp ++ ["package.json"]) = some (.raw bs) →
      readVersion fs0 sp = (.str "1.0.0", [msgVersionWarn])) ∧
    (∀ j, fs0.read (sp ++ ["package.json"]) = some (.json j) →
      (∀ fields, j ≠ .obj fields) →
      readVersion fs0 sp = (.str "1.0.0", [msgVersionWarn])) ∧
    (∀ fields, fs0.read (sp ++ ["package.json"]) = some (.json (.obj fields)) →
      jsonLookupLast fields "version" = none →
      readVersion fs0 sp = (.str "1.0.0", [msgDetected (.str "1.0.0")])) ∧
    (precondsPass validate fs0 sp = true →
      package_skill validate fs0 sp od cwd =
        packBody fs0 sp od cwd (readVersion fs0 sp) (validate sp fs0).2) := by
  refine ⟨?_, ?_, ?_, ?_, ?_, ?_⟩
  · intro h
    unfold readVersion
    rw [if_neg (by simp [h])]
  · intro hp hr
    unfold readVersion
    rw [if_pos hp, hr]
  · intro bs hr
    unfold readVersion
    rw [if_pos (pexists_of_read_some hr), hr]
  · intro j hr hno
    unfold readVersion
    rw [if_pos (pexists_of_read_some hr), hr]
    cases j with
    | obj fields => exact absurd rfl (hno fields)
    | null => rfl
    | bool b => rfl
    | num n => rfl
    | str s => rfl
    | arr xs => rfl
  · intro fields hr hlook
    unfold readVersion
    rw [if_pos (pexists_of_read_some hr), hr]
    simp only [hlook]
  · intro h
    unfold precondsPass at h
    simp only [Bool.and_eq_true] at h
    obtain ⟨⟨⟨h1, h2⟩, h3⟩, h4⟩ := h
    unfold package_skill
    rw [if_neg (by simp [h1]), if_neg (by simp [h2]), if_neg (by simp [h3]),
      if_neg (by simp [h4])]

/-- **C7 (counterexample)**: two filesystems identical except for the
presence of a root `package.json`: without it the discovered version is
`1.0.0` and the run fails (a directory named `s7-1.0.0.skill` occupies the
target name, so opening the zip raises, caught into a null result); with
`{"version": "2.0.0"}` the run succeeds.  The version-discovery outcome
therefore can affect the success of the run, contrary to the claim. -/
theorem claim7_counterexample :
    fsB7.files = fsA7.files ++
      [(["s7", "package.json"], FileData.json (.obj [("version", Json.str "2.0.0")]))] ∧
    fsB7.dirs = fsA7.dirs ∧
    runSuccess (package_skill vOk fsA7 ["s7"] none ["w"]) = false ∧
    runSuccess (package_skill vOk fsB7 ["s7"] none ["w"]) = true :=
  ⟨rfl, rfl, rfl, rfl⟩

/-- **C7 (witness)**: the amended claim evaluated on concrete filesystems:
no `package.json` gives version `1.0.0` silently; a raw (unparsable) one
gives `1.0.0` with the warning. -/
theorem claim7_witness :
    readVersion fsW ["skw"] = (.str "1.0.0", []) ∧
    readVersion fsC6 ["s6"] = (.str "1.0.0", [msgVersionWarn]) :=
  ⟨(claim7_amended vOk fsW ["skw"] none ["w"]).1 (by decide),
   (claim7_amended vOk fsC6 ["s6"] none ["w"]).2.2.1 [7, 7] rfl⟩

/-- **C8 (amended)**: every exception of the write phase is caught — once
the two preparation steps (output-directory creation and build-directory
preparation, lines 66-76, outside the `try`) have succeeded, the run never
terminates with an uncaught exception, and a failure to open the zip is
reported as an archive-creation error with a null result; but an uncaught
exception can escape from those preparation steps themselves (see the
counterexample), and any crash of the run is attributable to them. -/
theorem claim8_amended (validate : Fpath → FS → Bool × String) (fs0 : FS) (sp : Fpath)
    (od : Option Fpath) (cwd : Fpath) :
    (∀ e, package_skill validate fs0 sp od cwd = .error e →
      prepPhaseErr fs0 sp od cwd = some e) ∧
    (prepPhaseErr fs0 sp od cwd = none →
      runCrashed (package_skill validate fs0 sp od cwd) = false) ∧
    (∀ outp fs3, prepOut fs0 sp od cwd = some (outp, fs3) →
      precondsPass validate fs0 sp = true →
      (fs3.isDir outp &&
        !fs3.isDir (outp ++ [archiveName (pathName sp) (readVersion fs0 sp).1])) = false →
      runResult (package_skill validate fs0 sp od cwd) = none) := by
  refine ⟨?_, ?_, ?_⟩
  · intro e he
    by_cases h1 : fs0.pexists sp = false
    · unfold package_skill at he
      rw [if_pos h1] at he
      cases he
    by_cases h2 : fs0.isDir sp = false
    · unfold package_skill at he
      rw [if_neg h1, if_pos h2] at he
      cases he
    by_cases h3 : fs0.pexists (sp ++ ["SKILL.md"]) = false
    · unfold package_skill at he
      rw [if_neg h1, if_neg h2, if_pos h3] at he
      cases he
    by_cases h4 : (validate sp fs0).1 = false
    · unfold package_skill at he
      rw [if_neg h1, if_neg h2, if_neg h3, if_pos h4] at he
      cases he
    unfold package_skill at he
    rw [if_neg h1, if_neg h2, if_neg h3, if_neg h4] at he
    cases ho : outputPhase fs0 od cwd with
    | error e2 =>
      rw [packBody_out_error ho] at he
      injection he with he2
      unfold prepPhaseErr
      simp only [ho]
      rw [he2]
    | ok pr =>
      obtain ⟨outp, fs1⟩ := pr
      cases hp : prepareBuild fs1 sp with
      | error e2 =>
        rw [packBody_prep_error ho hp] at he
        injection he with he2
        unfold prepPhaseErr
        simp only [ho, hp]
        rw [he2]
      | ok fs3 =>
        rw [packBody_ok_ok ho hp] at he
        exact Except.noConfusion he
  · intro hn
    by_cases h1 : fs0.pexists sp = false
    · unfold package_skill
      rw [if_pos h1]
      rfl
    by_cases h2 : fs0.isDir sp = false
    · unfold package_skill
      rw [if_neg h1, if_pos h2]
      rfl
    by_cases h3 : fs0.pexists (sp ++ ["SKILL.md"]) = false
    · unfold package_skill
      rw [if_neg h1, if_neg h2, if_pos h3]
      rfl
    by_cases h4 : (validate sp fs0).1 = false
    · unfold package_skill
      rw [if_neg h1, if_neg h2, if_neg h3, if_pos h4]
      rfl
    unfold package_skill
    rw [if_neg h1, if_neg h2, if_neg h3, if_neg h4]
    cases ho : outputPhase fs0 od cwd with
    | error e2 =>
      unfold prepPhaseErr at hn
      simp only [ho] at hn
      cases hn
    | ok pr =>
      obtain ⟨outp, fs1⟩ := pr
      cases hp : prepareBuild fs1 sp with
      | error e2 =>
        unfold prepPhaseErr at hn
        simp only [ho, hp] at hn
        cases hn
      | ok fs3 =>
        rw [packBody_ok_ok ho hp]
        rfl
  · intro outp fs3 hpo hc hz
    unfold precondsPass at hc
    simp only [Bool.and_eq_true] at hc
    obtain ⟨⟨⟨h1, h2⟩, h3⟩, h4⟩ := hc
    unfold prepOut at hpo
    cases ho : outputPhase fs0 od cwd with
    | error e =>
      rw [ho] at hpo
      cases hpo
    | ok pr =>
      obtain ⟨outp2, fs1⟩ := pr
      simp only [ho] at hpo
      cases hp : prepareBuild fs1 sp with
      | error e =>
        simp only [hp] at hpo
        cases hpo
      | ok fs3b =>
        simp only [hp] at hpo
        obtain ⟨rfl, rfl⟩ := Prod.mk.inj (Option.some.inj hpo)
        unfold package_skill
        rw [if_neg (by simp [h1]), if_neg (by simp [h2]), if_neg (by simp [h3]),
          if_neg (by simp [h4])]
        rw [packBody_ok_ok ho hp]
        simp only [runResult]
        unfold tryPhase
        rw [if_neg (by simp [hz])]

/-- **C8 (counterexample)**: a regular file named `build` inside the skill
folder makes `shutil.rmtree` raise `NotADirectoryError` outside the `try`
block: the tool terminates with an unhandled exception, contrary to the
claim that all failures funnel into the null result. -/
theorem claim8_counterexample :
    package_skill vOk fsC8 ["s8"] none ["w"] = .error "NotADirectoryError" := rfl

/-- **C8 (witness)**: the amended claim at concrete inputs: the crash of
the `fsC8` run is attributed to the preparation phase, and a run whose
preparation succeeds does not crash. -/
theorem claim8_witness :
    prepPhaseErr fsC8 ["s8"] none ["w"] = some "NotADirectoryError" ∧
    runCrashed (package_skill vOk fsW ["skw"] none ["w"]) = false :=
  ⟨(claim8_amended vOk fsC8 ["s8"] none ["w"]).1 "NotADirectoryError" rfl,
   (claim8_amended vOk fsW ["skw"] none ["w"]).2.1 rfl⟩

/-- **C9**: a successful run removes any pre-existing `build/` contents
before mirroring: a leftover file below `build/` whose relative path is not
produced by the current run's filtered file set (e.g. its source was
deleted between two runs) is gone afterwards, and the build directory
reflects exactly the current run's filtered set (plus the manifest). -/
theorem claim9 (validate : Fpath → FS → Bool × String) (fs0 : FS) (sp : Fpath)
    (od : Option Fpath) (cwd : Fpath) (q : Fpath) (d : FileData)
    (hwf : fs0.Wf)
    (hout : (sp ++ ["build"]).isPrefixOf (resolvedOut od cwd) = false)
    (hs : runSuccess (package_skill validate fs0 sp od cwd) = true)
    (hpre : fs0.read ((sp ++ ["build"]) ++ q) = some d)
    (hq : q ≠ ["package.json"])
    (hgone : (includedSrc fs0 sp).find? (fun e => relOf sp e.1 == q) = none) :
    (runFS (package_skill validate fs0 sp od cwd)).read ((sp ++ ["build"]) ++ q) = none ∧
    (∀ q2, q2 ≠ ["package.json"] →
      (runFS (package_skill validate fs0 sp od cwd)).read ((sp ++ ["build"]) ++ q2) =
        ((includedSrc fs0 sp).find? (fun e => relOf sp e.1 == q2)).map (·.2)) := by
  obtain ⟨-, -, -, hbuild⟩ := run_characterization hwf hout hs
  refine ⟨?_, fun q2 h2 => hbuild q2 h2⟩
  rw [hbuild q hq, hgone]
  rfl

/-- **C9 (witness)**: a leftover `build/old.txt` from a previous run
disappears after a successful run whose source no longer produces it. -/
theorem claim9_witness :
    (runFS (package_skill vOk fsC9 ["s9"] none ["w"])).read ["s9", "build", "old.txt"] =
      none :=
  (claim9 vOk fsC9 ["s9"] none ["w"] ["old.txt"] (.raw [9]) (by decide) (by decide)
    (by rfl) rfl (by decide) rfl).1

/-- **C10**: exclusion matching runs over the components of the full
resolved path: a skill folder whose own resolved path contains one of the
seven excluded components yields, on a successful run, an archive with no
entries and a build directory holding only the generated manifest. -/
theorem claim10 (validate : Fpath → FS → Bool × String) (fs0 : FS) (sp : Fpath)
    (od : Option Fpath) (cwd : Fpath)
    (hcomp : hasExcludedAncestor sp = true)
    (hwf : fs0.Wf)
    (hout : (sp ++ ["build"]).isPrefixOf (resolvedOut od cwd) = false)
    (hs : runSuccess (package_skill validate fs0 sp od cwd) = true) :
    runResult (package_skill validate fs0 sp od cwd) =
      some (resolvedOut od cwd ++ [archiveName (pathName sp) (readVersion fs0 sp).1]) ∧
    (runFS (package_skill validate fs0 sp od cwd)).read
        (resolvedOut od cwd ++ [archiveName (pathName sp) (readVersion fs0 sp).1]) =
      some (.zipData []) ∧
    (runFS (package_skill validate fs0 sp od cwd)).read (sp ++ ["build", "package.json"]) =
      some (.json (manifestJson (readVersion fs0 sp).1)) ∧
    (∀ q, q ≠ ["package.json"] →
      (runFS (package_skill validate fs0 sp od cwd)).read ((sp ++ ["build"]) ++ q) = none) := by
  obtain ⟨hres, hzip, hman, hbuild⟩ := run_characterization hwf hout hs
  have hnil := includedSrc_nil_of_ancestor fs0 hcomp
  refine ⟨hres, ?_, hman, ?_⟩
  · rw [hzip, hnil]
    rfl
  · intro q hq
    rw [hbuild q hq, hnil]
    rfl

/-- **C10 (witness)**: a skill folder at `/h/rules/s10` (an ancestor named
`rules`) packages successfully into an empty archive, and its build
directory mirrors nothing. -/
theorem claim10_witness :
    runResult (package_skill vOk fsC10 ["h", "rules", "s10"] none ["w"]) =
      some ["w", "s10-1.0.0.skill"] ∧
    (runFS (package_skill vOk fsC10 ["h", "rules", "s10"] none ["w"])).read
        ["w", "s10-1.0.0.skill"] = some (.zipData []) ∧
    (runFS (package_skill vOk fsC10 ["h", "rules", "s10"] none ["w"])).read
        ["h", "rules", "s10", "build", "doc.md"] = none := by
  have h := claim10 vOk fsC10 ["h", "rules", "s10"] none ["w"] (by decide) (by decide)
    (by decide) (by rfl)
  exact ⟨h.1, h.2.1, h.2.2.2 ["doc.md"] (by decide)⟩
